import Mathlib

/-!
Shallow embedding of `src/NFC_Reader_Writer.ino` (Arduino MIFARE Classic
reader/writer firmware).  Hardware accesses (MFRC522 card commands, LCD
prints, analog button reads, serial byte I/O) are modelled at their
interface boundary: card commands become an environment of boolean
outcomes (`CardEnv`), the card contents become a map from block number to
a 16-byte list, and the user-visible prints become small result enums or
an output log.  Everything else (the menu/input state machine, the hex
key encoder, the text editor and the serial line accumulator) is
translated statement by statement from the source.
-/

namespace NFC

/-! ## Key store

`MFRC522::MIFARE_Key keys[3]` from the source: slot 0 is the factory
default key (six `0xFF` bytes), slot 1 the fixed secondary key
`D3 F7 D3 F7 D3 F7`, slot 2 the user-configurable key (initially six
`0xFF` bytes).  A key is modelled as a list of byte values. -/

structure KeySet where
  k0 : List Nat
  k1 : List Nat
  k2 : List Nat
  deriving DecidableEq

/-- The key table as initialised in `setup()`. -/
def keysInit : KeySet :=
  { k0 := List.replicate 6 0xFF,
    k1 := [0xD3, 0xF7, 0xD3, 0xF7, 0xD3, 0xF7],
    k2 := List.replicate 6 0xFF }

/-! ## Hex parsing (`strtoul(byteString.c_str(), NULL, 16)`)

The source converts a 12-character hex string to 6 key bytes two
characters at a time via `strtoul` with base 16.  `strtoulHex` models
`strtoul`'s behaviour on the at-most-2-character fragments that occur
here: it folds hex digits from the left and stops at the first
non-hex-digit character (returning 0 when the string starts with one). -/

def hexDigitVal (c : Char) : Option Nat :=
  if '0' ≤ c ∧ c ≤ '9' then some (c.toNat - 48)
  else if 'A' ≤ c ∧ c ≤ 'F' then some (c.toNat - 55)
  else if 'a' ≤ c ∧ c ≤ 'f' then some (c.toNat - 87)
  else none

def strtoulHexAux : List Char → Nat → Nat
  | [], acc => acc
  | c :: rest, acc =>
    match hexDigitVal c with
    | some d => strtoulHexAux rest (16 * acc + d)
    | none => acc

def strtoulHex (cs : List Char) : Nat := strtoulHexAux cs 0

/-- The byte-conversion loop shared by `changeKey` and
`changeKeyFromSerial`: `keyInput.substring(i*2, i*2+2)` parsed with
`strtoul(..., 16)` for `i = 0..5`. -/
def parseKeyBytes (cs : List Char) : List Nat :=
  (List.range 6).map (fun i => strtoulHex ((cs.drop (2 * i)).take 2))

/-- `changeKey()` from the source: rejects (returns the key set unchanged
together with `false`, standing for the "Invalid Key!" report) whenever
the accumulated string is not exactly 12 characters; otherwise installs
the parsed 6 bytes into slot 2 and returns `true` (the "Key Updated!"
report). -/
def changeKey (keyInput : List Char) (ks : KeySet) : KeySet × Bool :=
  if keyInput.length ≠ 12 then (ks, false)
  else ({ ks with k2 := parseKeyBytes keyInput }, true)

/-- `changeKeyFromSerial(newKey)`: installs the parsed bytes into slot 2
without any length check (the serial caller checks the length first). -/
def changeKeyFromSerial (newKey : List Char) (ks : KeySet) : KeySet :=
  { ks with k2 := parseKeyBytes newKey }

/-! ## Authentication fallback (`authenticateWithKeys`)

`PCD_Authenticate` against a given trailer block with key slot `i` is
modelled as a boolean `authOk i`.  `authTry` is the `for (i = 0;
i < NUM_KEYS; i++)` loop: it returns whether some key authenticated and
the list of key slots actually attempted, in order. -/

def authTry (authOk : Nat → Bool) : List Nat → Bool × List Nat
  | [] => (false, [])
  | k :: rest =>
    if authOk k then (true, [k])
    else
      let r := authTry authOk rest
      (r.1, k :: r.2)

/-- `authenticateWithKeys(trailerBlock)` with the per-slot outcome
abstracted into `authOk`: tries slots 0, 1, 2 in that order and stops at
the first success. -/
def authenticateWithKeys (authOk : Nat → Bool) : Bool × List Nat :=
  authTry authOk [0, 1, 2]

/-! ## Card operation environment

The MFRC522 card service at its interface boundary: `auth t i` is the
outcome of `PCD_Authenticate` on trailer block `t` with key slot `i`,
and `writeOk b` the outcome of `MIFARE_Write` on block `b`.  The card
contents are a map from block number to its 16 data bytes; a successful
`MIFARE_Write` updates that map, a failed one leaves it unchanged. -/

structure CardEnv where
  auth : Nat → Nat → Bool
  writeOk : Nat → Bool

/-! ## `writeCard()` — the "Write Default" operation -/

/-- The final LCD status screen printed by `writeCard`. -/
inductive LcdMsg
  | failed
  | authFailed
  | writeFailed
  | writeSuccessHello
  deriving DecidableEq

/-- The final serial status line printed by `writeCard`. -/
inductive SerialMsg
  | noCardTimeout
  | authFailedAllKeys
  | writeFailed
  | wroteHelloNFC
  deriving DecidableEq

structure WriteRes where
  lcd : LcdMsg
  serial : SerialMsg
  card : Nat → List Nat

/-- The fixed `dataBlock` of `writeCard`: the bytes
`'H','e','l','l','o',' ','N','F','C','!'` followed by six `' '` bytes. -/
def helloBlock : List Nat :=
  ['H', 'e', 'l', 'l', 'o', ' ', 'N', 'F', 'C', '!',
   ' ', ' ', ' ', ' ', ' ', ' '].map Char.toNat

/-- `writeCard()`: wait for a card (`cardFound` is the outcome of
`waitForCard()`), authenticate via trailer block 7 with the three-key
fallback, then `MIFARE_Write` the fixed 16-byte payload to block 4,
reporting the outcome on the LCD and on serial. -/
def writeCard (cardFound : Bool) (env : CardEnv) (card : Nat → List Nat) :
    WriteRes :=
  if cardFound = false then
    { lcd := .failed, serial := .noCardTimeout, card := card }
  else if (authenticateWithKeys (env.auth 7)).1 = false then
    { lcd := .authFailed, serial := .authFailedAllKeys, card := card }
  else if env.writeOk 4 = false then
    { lcd := .writeFailed, serial := .writeFailed, card := card }
  else
    { lcd := .writeSuccessHello, serial := .wroteHelloNFC,
      card := Function.update card 4 helloBlock }

/-! ## `formatCard()` -/

/-- Outcome of `formatCard` (the same status is rendered on the LCD and
on serial). -/
inductive FmtR
  | noCard
  | formatSuccess
  | formatFailed
  deriving DecidableEq

/-- The `emptyBlock` of `formatCard`: 16 zero bytes. -/
def zeroBlock : List Nat := List.replicate 16 0

/-- The inner `for (blockOffset = 0; blockOffset < 3; ...)` loop of
`formatCard`: writes `zeroBlock` to each listed block, stopping at the
first failed write (`success = false; break;`), and keeping the writes
already performed. -/
def wipeBlocksLoop (env : CardEnv) :
    (Nat → List Nat) → List Nat → Bool × (Nat → List Nat)
  | card, [] => (true, card)
  | card, b :: rest =>
    if env.writeOk b then
      wipeBlocksLoop env (Function.update card b zeroBlock) rest
    else (false, card)

/-- The outer `for (sector = 1; sector < 16 && success; sector++)` loop
of `formatCard`, over the given list of sectors: authenticate each
sector's trailer block `4*sector + 3` with the three-key fallback, wipe
the sector's three data blocks, and stop at the first sector whose
authentication or write fails. -/
def formatSectorsLoop (env : CardEnv) :
    (Nat → List Nat) → List Nat → Bool × (Nat → List Nat)
  | card, [] => (true, card)
  | card, s :: rest =>
    if (authenticateWithKeys (env.auth (4 * s + 3))).1 then
      match wipeBlocksLoop env card [4 * s, 4 * s + 1, 4 * s + 2] with
      | (true, card2) => formatSectorsLoop env card2 rest
      | (false, card2) => (false, card2)
    else (false, card)

/-- `formatCard()`: wait for a card, then run the sector loop over
sectors 1 through 15 (sector 0 is never in the list), reporting
success or failure. -/
def formatCard (cardFound : Bool) (env : CardEnv) (card : Nat → List Nat) :
    FmtR × (Nat → List Nat) :=
  if cardFound = false then (.noCard, card)
  else
    match formatSectorsLoop env card (List.range' 1 15) with
    | (true, card2) => (.formatSuccess, card2)
    | (false, card2) => (.formatFailed, card2)

/-! ## The serial front-end state machine

`handleSerialInput()` drains the serial byte stream one character at a
time; `runSerial` folds that per-character step over a list of incoming
characters.  The machine state carries the shared `currentState`, the
`serialInput` line accumulator, the key table and a log of the
semantically relevant serial outputs (character echoes and the menu
banner text are not logged; an entry `cardOpCall n` marks an invocation
of `writeCard`/`readCard`/`formatCard`, none of which touches
`currentState`, `serialInput` or `keys` in the source). -/

/-- The `MenuState` enum of the source. -/
inductive MenuState
  | MAIN_MENU
  | WRITE_DEFAULT
  | WRITE_CUSTOM
  | READ_CARD
  | FORMAT_CARD
  | CHANGE_KEY
  | TEXT_INPUT
  | KEY_INPUT
  | PROCESSING
  | SERIAL_TEXT_INPUT
  | SERIAL_KEY_INPUT
  deriving DecidableEq

/-- Logged serial-side effects. -/
inductive SOut
  | invalidChoice
  | invalidKeyMsg
  | keyChangeCall (s : List Char)
  | writeCustomCall (s : List Char)
  | cardOpCall (n : Nat)
  | promptText
  | promptKey
  | serialMenu
  deriving DecidableEq

structure SerialSt where
  currentState : MenuState
  serialInput : List Char
  keys : KeySet
  out : List SOut
  deriving DecidableEq

/-- State after `setup()`. -/
def serialInit : SerialSt :=
  { currentState := .MAIN_MENU, serialInput := [], keys := keysInit,
    out := [] }

/-- The digit-folding core of `atol`: consumes decimal digits from the
left and stops at the first non-digit. -/
def atolDigits : List Char → Nat → Nat
  | [], acc => acc
  | c :: rest, acc =>
    if '0' ≤ c ∧ c ≤ '9' then atolDigits rest (10 * acc + (c.toNat - 48))
    else acc

/-- Arduino `String::toInt()` (which calls `atol`): skip leading
whitespace, honour an optional sign, then fold decimal digits, yielding
0 when no digit follows. -/
def atolModel (cs : List Char) : Int :=
  let cs1 := cs.dropWhile
    (fun c => c = ' ' ∨ c = '\t' ∨ c = '\n' ∨ c = '\r' ∨
      c = '\x0b' ∨ c = '\x0c')
  match cs1 with
  | '-' :: rest => -(atolDigits rest 0 : Int)
  | '+' :: rest => (atolDigits rest 0 : Int)
  | _ => (atolDigits cs1 0 : Int)

/-- `executeSerialMenuOption(option)`: options 0, 2, 3 run a card
operation and re-display the menu; options 1 and 4 print a prompt and
move to the corresponding serial editor state without re-displaying the
menu.  A `switch` falling through (impossible for `option ∈ 0..4`) just
re-displays the menu. -/
def executeSerialMenuOption (st : SerialSt) (opt : Nat) : SerialSt :=
  match opt with
  | 0 => { st with out := st.out ++ [.cardOpCall 0, .serialMenu] }
  | 1 =>
    { st with
      out := st.out ++ [.promptText],
      currentState := .SERIAL_TEXT_INPUT }
  | 2 => { st with out := st.out ++ [.cardOpCall 2, .serialMenu] }
  | 3 => { st with out := st.out ++ [.cardOpCall 3, .serialMenu] }
  | 4 =>
    { st with
      out := st.out ++ [.promptKey],
      currentState := .SERIAL_KEY_INPUT }
  | _ => { st with out := st.out ++ [.serialMenu] }

/-- `processSerialCommand()`: interpret the accumulated line according
to the active state.  In `MAIN_MENU` the line is parsed with `toInt`
and dispatched when in `1..5`; in `SERIAL_TEXT_INPUT` the line is
written as custom text; in `SERIAL_KEY_INPUT` the user key is changed
only when the line has exactly 12 characters, otherwise the invalid-key
message is printed; both editor states then return to `MAIN_MENU` and
re-display the menu.  In any other state the function does nothing. -/
def processSerialCommand (st : SerialSt) : SerialSt :=
  match st.currentState with
  | .MAIN_MENU =>
    let choice := atolModel st.serialInput
    if 1 ≤ choice ∧ choice ≤ 5 then
      executeSerialMenuOption st (choice - 1).toNat
    else { st with out := st.out ++ [.invalidChoice, .serialMenu] }
  | .SERIAL_TEXT_INPUT =>
    { st with
      out := st.out ++ [.writeCustomCall st.serialInput, .cardOpCall 1,
        .serialMenu],
      currentState := .MAIN_MENU }
  | .SERIAL_KEY_INPUT =>
    if st.serialInput.length = 12 then
      { st with
        keys := changeKeyFromSerial st.serialInput st.keys,
        out := st.out ++ [.keyChangeCall st.serialInput, .serialMenu],
        currentState := .MAIN_MENU }
    else
      { st with
        out := st.out ++ [.invalidKeyMsg, .serialMenu],
        currentState := .MAIN_MENU }
  | _ => st

/-- The hex-digit test of `handleSerialInput` for `SERIAL_KEY_INPUT`:
`(c >= '0' && c <= '9') || (c >= 'A' && c <= 'F') ||
 (c >= 'a' && c <= 'f')`. -/
def isHexChar (c : Char) : Bool :=
  (decide ('0' ≤ c) && decide (c ≤ '9')) ||
  (decide ('A' ≤ c) && decide (c ≤ 'F')) ||
  (decide ('a' ≤ c) && decide (c ≤ 'f'))

/-- One iteration of the `while (Serial.available())` loop of
`handleSerialInput()`, processing one incoming character: a line
terminator runs `processSerialCommand` on a non-empty line and clears
the accumulator; backspace/DEL erases the last character; a printable
character is appended subject to the per-state capacity (16 in
`SERIAL_TEXT_INPUT`, 12 and hex-only in `SERIAL_KEY_INPUT`, 10 in
`MAIN_MENU`), everything else is discarded. -/
def handleSerialChar (st : SerialSt) (c : Char) : SerialSt :=
  if c = '\n' ∨ c = '\r' then
    if 0 < st.serialInput.length then
      let st1 := processSerialCommand st
      { st1 with serialInput := [] }
    else st
  else if c = '\x08' ∨ c.toNat = 127 then
    if 0 < st.serialInput.length then
      { st with serialInput := st.serialInput.dropLast }
    else st
  else if 32 ≤ c.toNat ∧ c.toNat ≤ 126 then
    if st.currentState = .SERIAL_TEXT_INPUT ∧ st.serialInput.length < 16 then
      { st with serialInput := st.serialInput ++ [c] }
    else if st.currentState = .SERIAL_KEY_INPUT ∧
        st.serialInput.length < 12 then
      if isHexChar c then { st with serialInput := st.serialInput ++ [c] }
      else st
    else if st.currentState = .MAIN_MENU ∧ st.serialInput.length < 10 then
      { st with serialInput := st.serialInput ++ [c] }
    else st
  else st

/-- The whole serial byte stream processed from the post-`setup()`
state. -/
def runSerial (cs : List Char) : SerialSt :=
  cs.foldl handleSerialChar serialInit

/-! ## The LCD text editor (`TEXT_INPUT` state)

`handleTextInputButton` with the four directional buttons; `BTN_SELECT`
leaves the editor and is outside the scope of the properties below.
The editor state is `inputText`/`cursorPos`/`charIndex` from the
source. -/

/-- The `charSet[]` character table of the source (the `sizeof - 1`
drops the terminating NUL, so its symbol count is its length). -/
def charSet : String :=
  " ABCDEFGHIJKLMNOPQRSTUVWXYZ" ++
  "abcdefghijklmnopqrstuvwxyz" ++
  "0123456789" ++
  "!@#$%^&*()_+-=[]\x7b\x7d|;:,.<>?"

def charSetChars : List Char := charSet.toList

/-- `charSetSize = sizeof(charSet) - 1`. -/
def charSetSize : Nat := charSetChars.length

inductive TBtn
  | up
  | down
  | left
  | right
  deriving DecidableEq

structure TextSt where
  inputText : List Char
  cursorPos : Nat
  charIndex : Nat
  deriving DecidableEq

/-- State set by `startTextInput()`. -/
def textInit : TextSt :=
  { inputText := [], cursorPos := 0, charIndex := 0 }

/-- The `for (i = 0; i < charSetSize; i++) if (charSet[i] == c) ...`
search: index of the first occurrence of `c`, if any. -/
def findIdxFrom : List Char → Char → Option Nat
  | [], _ => none
  | x :: xs, c =>
    if x = c then some 0 else (findIdxFrom xs c).map (· + 1)

/-- The trailing-space trim loop of `updateCurrentCharacter`:
`while (length > 0 && last == ' ' && length > cursorPos + 1) dropLast`.
The loop drops one cell per iteration, so running it with
`fuel = length` iterations available is exact. -/
def trimTrailAux : Nat → List Char → Nat → List Char
  | 0, l, _ => l
  | fuel + 1, l, pos =>
    if 0 < l.length ∧ l.getLast? = some ' ' ∧ pos + 1 < l.length then
      trimTrailAux fuel l.dropLast pos
    else l

def trimTrail (l : List Char) (pos : Nat) : List Char :=
  trimTrailAux l.length l pos

/-- `updateCurrentCharacter()`: extend `inputText` with spaces until it
covers `cursorPos`, store `charSet[charIndex]` there, then trim
trailing spaces beyond `cursorPos + 1`. -/
def updateCurrentCharacter (st : TextSt) : TextSt :=
  let newChar := charSetChars.getD st.charIndex ' '
  let ext := st.inputText ++
    List.replicate (st.cursorPos + 1 - st.inputText.length) ' '
  { st with inputText := trimTrail (ext.set st.cursorPos newChar) st.cursorPos }

/-- The candidate-character re-derivation performed by `BTN_LEFT` /
`BTN_RIGHT` after the cursor moved: when the cursor is inside the
string, look the stored character up in `charSet` (leaving `charIndex`
unchanged when absent, as the source loop would); otherwise default to
index 0 (space). -/
def rederiveChar (st : TextSt) : TextSt :=
  if st.cursorPos < st.inputText.length then
    match findIdxFrom charSetChars (st.inputText.getD st.cursorPos ' ') with
    | some i => { st with charIndex := i }
    | none => st
  else { st with charIndex := 0 }

/-- `handleTextInputButton(button)` for the four directional buttons:
up/down move the candidate character modulo `charSetSize` and commit it
at the cursor; left/right move the cursor (clamped to `0..16`) and
re-derive the candidate character. -/
def handleTextInputButton (st : TextSt) : TBtn → TextSt
  | .up =>
    updateCurrentCharacter
      { st with charIndex := (st.charIndex + 1) % charSetSize }
  | .down =>
    updateCurrentCharacter
      { st with charIndex := (st.charIndex + charSetSize - 1) % charSetSize }
  | .left =>
    if 0 < st.cursorPos then
      rederiveChar { st with cursorPos := st.cursorPos - 1 }
    else st
  | .right =>
    if st.cursorPos < 16 then
      rederiveChar { st with cursorPos := st.cursorPos + 1 }
    else st

/-- A button sequence applied from entry into `TEXT_INPUT`. -/
def runText (evs : List TBtn) : TextSt :=
  evs.foldl handleTextInputButton textInit

/-! ## The LCD key editor (`KEY_INPUT` state)

`handleKeyInputButton` from the source.  A `select` press at
`keyPos = 11` runs `executeKeyInput()` and hence `changeKey()`; the
machine logs each such finalize attempt as the pair of the key string
handed to `changeKey` and the boolean outcome (`true` = key updated,
`false` = the "Invalid Key!" report). -/

inductive KBtn
  | up
  | down
  | left
  | right
  | select
  deriving DecidableEq

structure KeySt where
  keyInput : List Char
  keyPos : Nat
  keyCharIndex : Nat
  keys : KeySet
  finals : List (List Char × Bool)
  deriving DecidableEq

/-- State set by `startKeyInput()` (with the key table as it stands). -/
def keyInit : KeySt :=
  { keyInput := [], keyPos := 0, keyCharIndex := 0, keys := keysInit
    finals := [] }

/-- The hex character selected by `keyCharIndex`:
`(keyCharIndex < 10) ? '0' + keyCharIndex : 'A' + (keyCharIndex - 10)`. -/
def hexCharOf (i : Nat) : Char :=
  if i < 10 then Char.ofNat (48 + i) else Char.ofNat (65 + (i - 10))

/-- The commit performed by `BTN_SELECT`: append the selected hex
character when the cursor sits at the end, overwrite in place
otherwise. -/
def selectCommit (st : KeySt) : List Char :=
  if st.keyInput.length ≤ st.keyPos then st.keyInput ++ [hexCharOf st.keyCharIndex]
  else st.keyInput.set st.keyPos (hexCharOf st.keyCharIndex)

/-- `handleKeyInputButton(button)`: up/down move the candidate hex digit
modulo 16, left/right move the cursor (clamped to `0..11`), select
commits the digit and either advances the cursor (`keyPos < 11`) or
finalizes via `changeKey`. -/
def handleKeyInputButton (st : KeySt) : KBtn → KeySt
  | .up => { st with keyCharIndex := (st.keyCharIndex + 1) % 16 }
  | .down => { st with keyCharIndex := (st.keyCharIndex + 16 - 1) % 16 }
  | .left => if 0 < st.keyPos then { st with keyPos := st.keyPos - 1 } else st
  | .right =>
    if st.keyPos < 11 then { st with keyPos := st.keyPos + 1 } else st
  | .select =>
    let committed := selectCommit st
    if st.keyPos < 11 then
      { st with keyInput := committed, keyPos := st.keyPos + 1 }
    else
      let r := changeKey committed st.keys
      { st with
        keyInput := committed,
        keys := r.1,
        finals := st.finals ++ [(committed, r.2)] }

/-- A button sequence applied from entry into `KEY_INPUT`. -/
def runKey (evs : List KBtn) : KeySt :=
  evs.foldl handleKeyInputButton keyInit

/-! ## Helper lemmas: `findIdxFrom` -/

theorem findIdxFrom_spec (d : Char) :
    ∀ (l : List Char) (c : Char), c ∈ l →
      ∃ i, findIdxFrom l c = some i ∧ i < l.length ∧ l.getD i d = c := by
  intro l
  induction l with
  | nil => intro c hc; cases hc
  | cons x xs ih =>
    intro c hc
    by_cases hx : x = c
    · exact ⟨0, by simp [findIdxFrom, hx], by simp, by simp [hx]⟩
    · have hmem : c ∈ xs := by
        rcases List.mem_cons.mp hc with h | h
        · exact absurd h.symm hx
        · exact h
      obtain ⟨i, hfind, hlt, hget⟩ := ih c hmem
      refine ⟨i + 1, ?_, by simp; omega, ?_⟩
      · simp [findIdxFrom, hx, hfind]
      · simpa [List.getD_cons_succ] using hget

theorem findIdxFrom_lt (l : List Char) (c : Char) (i : Nat)
    (h : findIdxFrom l c = some i) : i < l.length := by
  induction l generalizing i with
  | nil => simp [findIdxFrom] at h
  | cons x xs ih =>
    by_cases hx : x = c
    · simp [findIdxFrom, hx] at h
      simp
      omega
    · simp only [findIdxFrom, if_neg hx, Option.map_eq_some'] at h
      obtain ⟨j, hj, hji⟩ := h
      have := ih j hj
      simp
      omega

/-! ## Helper lemmas: `trimTrailAux` -/

theorem trimTrailAux_length_le :
    ∀ (fuel : Nat) (l : List Char) (pos : Nat),
      (trimTrailAux fuel l pos).length ≤ l.length := by
  intro fuel
  induction fuel with
  | zero => intro l pos; simp [trimTrailAux]
  | succ n ih =>
    intro l pos
    unfold trimTrailAux
    split
    · calc (trimTrailAux n l.dropLast pos).length ≤ l.dropLast.length :=
            ih l.dropLast pos
        _ ≤ l.length := by simp [List.length_dropLast]
    · exact le_refl _

theorem trimTrailAux_length_ge :
    ∀ (fuel : Nat) (l : List Char) (pos : Nat), pos + 1 ≤ l.length →
      pos + 1 ≤ (trimTrailAux fuel l pos).length := by
  intro fuel
  induction fuel with
  | zero => intro l pos h; simpa [trimTrailAux] using h
  | succ n ih =>
    intro l pos h
    unfold trimTrailAux
    split
    · next hc =>
      exact ih l.dropLast pos (by simp [List.length_dropLast]; omega)
    · exact h

theorem trimTrailAux_getD (d : Char) :
    ∀ (fuel : Nat) (l : List Char) (pos : Nat), pos + 1 ≤ l.length →
      (trimTrailAux fuel l pos).getD pos d = l.getD pos d := by
  intro fuel
  induction fuel with
  | zero => intro l pos _; simp [trimTrailAux]
  | succ n ih =>
    intro l pos h
    unfold trimTrailAux
    split
    · next hc =>
      have hlen : pos + 1 ≤ l.dropLast.length := by
        simp [List.length_dropLast]; omega
      rw [ih l.dropLast pos hlen]
      have hpos : pos < l.dropLast.length := hlen
      have hpos2 : pos < l.length := by omega
      rw [List.getD_eq_getElem _ _ hpos, List.getD_eq_getElem _ _ hpos2]
      exact List.getElem_dropLast ..
    · rfl

theorem trimTrailAux_subset :
    ∀ (fuel : Nat) (l : List Char) (pos : Nat) (c : Char),
      c ∈ trimTrailAux fuel l pos → c ∈ l := by
  intro fuel
  induction fuel with
  | zero => intro l pos c h; simpa [trimTrailAux] using h
  | succ n ih =>
    intro l pos c h
    unfold trimTrailAux at h
    split at h
    · exact List.dropLast_subset l (ih l.dropLast pos c h)
    · exact h

/-! ## The text-editor invariant -/

/-- `charSet` has 89 symbols, not 95: of the 95 printable ASCII
characters it omits the double quote, the single quote, the slash, the
backslash, the backtick and the tilde. -/
theorem charSetSize_eq : charSetSize = 89 := by decide

/-- Invariant of the `TEXT_INPUT` editor state that holds on entry and
is preserved by every directional button. -/
def TextInv (st : TextSt) : Prop :=
  st.cursorPos ≤ 16 ∧ st.charIndex < charSetSize ∧
  st.inputText.length ≤ 17 ∧
  (∀ c ∈ st.inputText, c ∈ charSetChars) ∧
  charSetChars.getD st.charIndex ' ' = st.inputText.getD st.cursorPos ' '

theorem textInv_init : TextInv textInit := by
  refine ⟨by decide, by decide, by decide, ?_, by decide⟩
  intro c hc
  simp [textInit] at hc

theorem trimSetExt_spec (l : List Char) (pos : Nat) (a : Char)
    (h16 : pos ≤ 16) (hlen : l.length ≤ 17) :
    ((trimTrail ((l ++ List.replicate (pos + 1 - l.length) ' ').set pos a)
        pos).length ≤ 17 ∧
      (∀ c ∈ trimTrail ((l ++ List.replicate (pos + 1 - l.length) ' ').set
          pos a) pos,
        c ∈ l ∨ c = ' ' ∨ c = a) ∧
      (trimTrail ((l ++ List.replicate (pos + 1 - l.length) ' ').set pos a)
          pos).getD pos ' ' = a) := by
  have hsetlen :
      ((l ++ List.replicate (pos + 1 - l.length) ' ').set pos a).length =
      max l.length (pos + 1) := by
    rw [List.length_set]; simp; omega
  have hposlt :
      pos < ((l ++ List.replicate (pos + 1 - l.length) ' ').set pos a).length := by
    rw [hsetlen]; omega
  unfold trimTrail
  refine ⟨?_, ?_, ?_⟩
  · refine le_trans (trimTrailAux_length_le ..) ?_
    rw [hsetlen]; omega
  · intro c hc
    have hc2 := trimTrailAux_subset _ _ _ _ hc
    rcases List.mem_or_eq_of_mem_set hc2 with h | h
    · rcases List.mem_append.mp h with h1 | h1
      · exact Or.inl h1
      · exact Or.inr (Or.inl (List.eq_of_mem_replicate h1))
    · exact Or.inr (Or.inr h)
  · rw [trimTrailAux_getD ' ' _ _ _ (by omega)]
    rw [List.getD_eq_getElem _ _ hposlt]
    exact List.getElem_set_self _

theorem updateCurrentCharacter_inv (st : TextSt)
    (h16 : st.cursorPos ≤ 16) (hci : st.charIndex < charSetSize)
    (hlen : st.inputText.length ≤ 17)
    (hmem : ∀ c ∈ st.inputText, c ∈ charSetChars) :
    TextInv (updateCurrentCharacter st) := by
  have hspace : (' ' : Char) ∈ charSetChars := by decide
  have hnewmem : charSetChars.getD st.charIndex ' ' ∈ charSetChars := by
    rw [List.getD_eq_getElem _ _ hci]
    exact List.getElem_mem hci
  obtain ⟨hl, hm, hg⟩ := trimSetExt_spec st.inputText st.cursorPos
    (charSetChars.getD st.charIndex ' ') h16 hlen
  refine ⟨h16, hci, hl, ?_, ?_⟩
  · intro c hc
    rcases hm c hc with h | h | h
    · exact hmem c h
    · rw [h]; exact hspace
    · rw [h]; exact hnewmem
  · exact hg.symm

theorem rederiveChar_inv (st : TextSt)
    (h16 : st.cursorPos ≤ 16) (_hci : st.charIndex < charSetSize)
    (hlen : st.inputText.length ≤ 17)
    (hmem : ∀ c ∈ st.inputText, c ∈ charSetChars) :
    TextInv (rederiveChar st) := by
  unfold rederiveChar
  by_cases hpos : st.cursorPos < st.inputText.length
  · have hcmem : st.inputText.getD st.cursorPos ' ' ∈ charSetChars := by
      rw [List.getD_eq_getElem _ _ hpos]
      exact hmem _ (List.getElem_mem hpos)
    obtain ⟨i, hfind, hlt, hget⟩ := findIdxFrom_spec ' ' _ _ hcmem
    simp only [if_pos hpos, hfind]
    exact ⟨h16, hlt, hlen, hmem, hget⟩
  · simp only [if_neg hpos]
    have hd : st.inputText.getD st.cursorPos ' ' = ' ' :=
      List.getD_eq_default _ _ (by omega)
    refine ⟨h16, by show (0 : Nat) < charSetSize; rw [charSetSize_eq]; omega,
      hlen, hmem, ?_⟩
    show charSetChars.getD 0 ' ' = st.inputText.getD st.cursorPos ' '
    rw [hd]
    decide

theorem handleTextInputButton_inv (st : TextSt) (b : TBtn)
    (h : TextInv st) : TextInv (handleTextInputButton st b) := by
  obtain ⟨h16, hci, hlen, hmem, hmatch⟩ := h
  have hcs : 0 < charSetSize := by rw [charSetSize_eq]; omega
  cases b with
  | up =>
    exact updateCurrentCharacter_inv _ h16 (Nat.mod_lt _ hcs) hlen hmem
  | down =>
    exact updateCurrentCharacter_inv _ h16 (Nat.mod_lt _ hcs) hlen hmem
  | left =>
    show TextInv (if 0 < st.cursorPos then _ else st)
    split
    · next hpos =>
      exact rederiveChar_inv { st with cursorPos := st.cursorPos - 1 }
        (by show st.cursorPos - 1 ≤ 16; omega) hci hlen hmem
    · exact ⟨h16, hci, hlen, hmem, hmatch⟩
  | right =>
    show TextInv (if st.cursorPos < 16 then _ else st)
    split
    · next hpos =>
      exact rederiveChar_inv { st with cursorPos := st.cursorPos + 1 }
        (by show st.cursorPos + 1 ≤ 16; omega) hci hlen hmem
    · exact ⟨h16, hci, hlen, hmem, hmatch⟩

theorem foldl_textInv :
    ∀ (evs : List TBtn) (st : TextSt), TextInv st →
      TextInv (evs.foldl handleTextInputButton st) := by
  intro evs
  induction evs with
  | nil => intro st h; exact h
  | cons e rest ih =>
    intro st h
    exact ih _ (handleTextInputButton_inv st e h)

theorem runText_inv (evs : List TBtn) : TextInv (runText evs) :=
  foldl_textInv evs textInit textInv_init

/-- `updateCurrentCharacter` only rewrites `inputText`. -/
theorem updateCurrentCharacter_charIndex (st : TextSt) :
    (updateCurrentCharacter st).charIndex = st.charIndex := rfl

/-! ## Claim theorems: the text editor (C6, C7, C8) -/

/-- C6, counterexample: the character table `charSet` has 89 symbols,
not 95, so the claimed wrap boundary is wrong: decrementing the
candidate index from 0 yields 88 (the table's actual last index), not
94 (the last index of a 95-symbol alphabet). -/
theorem C6_charSet_counterexample :
    charSetSize = 89 ∧ ¬ charSetSize = 95 ∧
    (runText [TBtn.down]).charIndex = 88 ∧
    ¬ (runText [TBtn.down]).charIndex = 94 := by
  decide

/-- C6, amended (95 corrected to 89): for every sequence of up/down
(indeed of any directional) button events in `TEXT_INPUT`, the
candidate character index stays within `[0, 89)` — an index into the
fixed 89-symbol table `charSet` — and wraps exactly at the boundary:
incrementing from the last symbol (index 88) yields 0 and decrementing
from 0 yields 88. -/
theorem C6_charIndex_range_and_wrap (evs : List TBtn) :
    (runText evs).charIndex < charSetSize ∧
    charSetSize = 89 ∧
    ((runText evs).charIndex = charSetSize - 1 →
      (handleTextInputButton (runText evs) TBtn.up).charIndex = 0) ∧
    ((runText evs).charIndex = 0 →
      (handleTextInputButton (runText evs) TBtn.down).charIndex =
        charSetSize - 1) := by
  obtain ⟨_, hci, _, _, _⟩ := runText_inv evs
  refine ⟨hci, charSetSize_eq, ?_, ?_⟩
  · intro hb
    show ((runText evs).charIndex + 1) % charSetSize = 0
    rw [hb, charSetSize_eq]
  · intro hb
    show ((runText evs).charIndex + charSetSize - 1) % charSetSize =
      charSetSize - 1
    rw [hb, charSetSize_eq]

/-- C6 witness: the boundary hypotheses hold at the concrete sequences
`[down]` (index 88 = last symbol) and `[]` (index 0). -/
theorem C6_charIndex_witness :
    ((handleTextInputButton (runText [TBtn.down]) TBtn.up).charIndex = 0) ∧
    ((handleTextInputButton (runText []) TBtn.down).charIndex =
      charSetSize - 1) :=
  ⟨(C6_charIndex_range_and_wrap [TBtn.down]).2.2.1 (by decide),
   (C6_charIndex_range_and_wrap []).2.2.2 (by decide)⟩

/-- C7: after any button sequence ending in a cursor-move (left/right)
event, the cursor stays within `[0, 16]` and the candidate character
index denotes exactly the character stored in the text buffer at the
cursor (or the space character when the buffer has no cell there) —
`charSet[charIndex]` equals the buffer lookup with space default. -/
theorem C7_cursor_and_rederive (evs : List TBtn) (b : TBtn)
    (_hb : b = TBtn.left ∨ b = TBtn.right) :
    (runText (evs ++ [b])).cursorPos ≤ 16 ∧
    charSetChars.getD (runText (evs ++ [b])).charIndex ' ' =
      (runText (evs ++ [b])).inputText.getD
        (runText (evs ++ [b])).cursorPos ' ' := by
  obtain ⟨h16, _, _, _, hmatch⟩ := runText_inv (evs ++ [b])
  exact ⟨h16, hmatch⟩

/-- C7 witness: one concrete right-move from the fresh editor. -/
theorem C7_cursor_witness :
    (runText ([TBtn.up] ++ [TBtn.right])).cursorPos ≤ 16 ∧
    charSetChars.getD (runText ([TBtn.up] ++ [TBtn.right])).charIndex ' ' =
      (runText ([TBtn.up] ++ [TBtn.right])).inputText.getD
        (runText ([TBtn.up] ++ [TBtn.right])).cursorPos ' ' :=
  C7_cursor_and_rederive [TBtn.up] TBtn.right (Or.inr rfl)

/-- C8, counterexample: sixteen right presses followed by one up press
commit a character at cursor position 16, extending the buffer to 17
cells — the claimed 16-cell bound is exceeded. -/
theorem C8_bufferLength_counterexample :
    (runText (List.replicate 16 TBtn.right ++ [TBtn.up])).inputText.length
      = 17 ∧
    ¬ (runText (List.replicate 16 TBtn.right ++
        [TBtn.up])).inputText.length ≤ 16 := by
  decide

/-- C8, amended (16 corrected to 17): for every sequence of TextInput
events from entry into the editor, the text buffer's length never
exceeds 17 cells (the 17th cell arises exactly from a commit at cursor
position 16). -/
theorem C8_bufferLength_bound (evs : List TBtn) :
    (runText evs).inputText.length ≤ 17 :=
  (runText_inv evs).2.2.1

/-! ## The serial key-input invariant (C9 machinery) -/

/-- Invariant of the serial front-end: in `SERIAL_KEY_INPUT` the line
accumulator holds at most 12 characters, all hexadecimal; and every key
change ever dispatched to `changeKeyFromSerial` was a 12-character
all-hexadecimal string. -/
def SerialInv (st : SerialSt) : Prop :=
  (st.currentState = MenuState.SERIAL_KEY_INPUT →
    st.serialInput.length ≤ 12 ∧
      ∀ ch ∈ st.serialInput, isHexChar ch = true) ∧
  (∀ s, SOut.keyChangeCall s ∈ st.out →
    s.length = 12 ∧ ∀ ch ∈ s, isHexChar ch = true)

theorem serialInv_init : SerialInv serialInit := by
  constructor
  · intro h
    simp [serialInit] at h
  · intro s hs
    simp [serialInit] at hs

theorem executeSerialMenuOption_keyChange (st : SerialSt) (o : Nat)
    (s : List Char)
    (h : SOut.keyChangeCall s ∈ (executeSerialMenuOption st o).out) :
    SOut.keyChangeCall s ∈ st.out := by
  rcases o with _ | _ | _ | _ | _ | o <;>
    simpa [executeSerialMenuOption] using h

theorem processSerialCommand_keyChange (st : SerialSt)
    (h1 : st.currentState = MenuState.SERIAL_KEY_INPUT →
      st.serialInput.length ≤ 12 ∧
        ∀ ch ∈ st.serialInput, isHexChar ch = true)
    (h2 : ∀ s, SOut.keyChangeCall s ∈ st.out →
      s.length = 12 ∧ ∀ ch ∈ s, isHexChar ch = true) :
    ∀ s, SOut.keyChangeCall s ∈ (processSerialCommand st).out →
      s.length = 12 ∧ ∀ ch ∈ s, isHexChar ch = true := by
  intro s hs
  obtain ⟨cs, si, ks, out⟩ := st
  cases cs <;> simp only [processSerialCommand] at hs
  case MAIN_MENU =>
    split at hs
    · exact h2 s (executeSerialMenuOption_keyChange _ _ s hs)
    · exact h2 s (by simpa using hs)
  case SERIAL_TEXT_INPUT =>
    exact h2 s (by simpa using hs)
  case SERIAL_KEY_INPUT =>
    split at hs
    · next h12 =>
      rcases (by simpa using hs : SOut.keyChangeCall s ∈ out ∨ s = si) with
        hmem | rfl
      · exact h2 s hmem
      · exact ⟨h12, (h1 rfl).2⟩
    · exact h2 s (by simpa using hs)
  all_goals exact h2 s hs

theorem handleSerialChar_inv (st : SerialSt) (c : Char)
    (h : SerialInv st) : SerialInv (handleSerialChar st c) := by
  obtain ⟨h1, h2⟩ := h
  unfold handleSerialChar
  split_ifs with hnl hlen0 hbs hlen1 hpr hT hK hHex hM
  · constructor
    · intro _
      constructor
      · simp
      · intro ch hch; simp at hch
    · intro s hs
      exact processSerialCommand_keyChange st h1 h2 s hs
  · exact ⟨h1, h2⟩
  · constructor
    · intro hkey
      obtain ⟨hlen, hhex⟩ := h1 hkey
      constructor
      · simp [List.length_dropLast]; omega
      · intro ch hch
        exact hhex ch (List.dropLast_subset _ hch)
    · exact h2
  · exact ⟨h1, h2⟩
  · constructor
    · intro hkey
      exact absurd (hT.1.symm.trans hkey) (by decide)
    · exact h2
  · constructor
    · intro _
      obtain ⟨hlen, hhex⟩ := h1 hK.1
      constructor
      · simp
        omega
      · intro ch hch
        rcases List.mem_append.mp hch with hm | hm
        · exact hhex ch hm
        · rw [List.mem_singleton.mp hm]
          exact hHex
    · exact h2
  · exact ⟨h1, h2⟩
  · constructor
    · intro hkey
      exact absurd (hM.1.symm.trans hkey) (by decide)
    · exact h2
  · exact ⟨h1, h2⟩
  · exact ⟨h1, h2⟩

theorem foldl_serialInv :
    ∀ (cs : List Char) (st : SerialSt), SerialInv st →
      SerialInv (cs.foldl handleSerialChar st) := by
  intro cs
  induction cs with
  | nil => intro st h; exact h
  | cons c rest ih =>
    intro st h
    exact ih _ (handleSerialChar_inv st c h)

theorem runSerial_inv (cs : List Char) : SerialInv (runSerial cs) :=
  foldl_serialInv cs serialInit serialInv_init

/-! ## Claim theorems: authentication fallback (C1) -/

/-- C1: `authenticateWithKeys` tries key slots in the fixed order
0, 1, 2, returns success at the first key that authenticates (without
attempting later slots, as the attempted-slot list shows), and fails
exactly when all three keys fail; for a card keyed only to slot 1,
exactly two authentication attempts occur before success. -/
theorem C1_auth_fallback_order (authOk : Nat → Bool) :
    (authenticateWithKeys authOk =
      (if authOk 0 then (true, [0])
       else if authOk 1 then (true, [0, 1])
       else if authOk 2 then (true, [0, 1, 2])
       else (false, [0, 1, 2]))) ∧
    ((authenticateWithKeys authOk).1 = false ↔
      authOk 0 = false ∧ authOk 1 = false ∧ authOk 2 = false) ∧
    authenticateWithKeys (fun k => k == 1) = (true, [0, 1]) ∧
    (authenticateWithKeys (fun k => k == 1)).2.length = 2 := by
  refine ⟨?_, ?_, by decide, by decide⟩ <;>
    rcases h0 : authOk 0 <;> rcases h1 : authOk 1 <;> rcases h2 : authOk 2 <;>
      simp [authenticateWithKeys, authTry, h0, h1, h2]

/-! ## Claim theorems: write default (C3) -/

/-- C3: with a compatible card present within the timeout
(`cardFound = true`), keyed to the factory key (slot 0 authenticates on
trailer block 7) and accepting the block-4 write, the "Write Default"
operation stores exactly the 16-byte payload "Hello NFC!" followed by
6 spaces in data block 4, leaves every other block unchanged, and
reports success on both the LCD and the serial front-end. -/
theorem C3_writeDefault (env : CardEnv) (card : Nat → List Nat)
    (hauth : env.auth 7 0 = true) (hw : env.writeOk 4 = true) :
    (writeCard true env card).lcd = LcdMsg.writeSuccessHello ∧
    (writeCard true env card).serial = SerialMsg.wroteHelloNFC ∧
    (writeCard true env card).card 4 = helloBlock ∧
    helloBlock =
      ("Hello NFC!".toList ++ List.replicate 6 ' ').map Char.toNat ∧
    helloBlock.length = 16 ∧
    (∀ b, b ≠ 4 → (writeCard true env card).card b = card b) := by
  have ha : (authenticateWithKeys (env.auth 7)).1 = true := by
    simp [authenticateWithKeys, authTry, hauth]
  refine ⟨?_, ?_, ?_, by decide, by decide, ?_⟩ <;>
    simp [writeCard, ha, hw, Function.update_apply] <;>
    intro b hb <;> simp [hb]

/-- C3 witness: a concrete all-accepting environment. -/
theorem C3_writeDefault_witness :
    (writeCard true ⟨fun _ _ => true, fun _ => true⟩ (fun _ => [])).lcd =
      LcdMsg.writeSuccessHello ∧
    (writeCard true ⟨fun _ _ => true, fun _ => true⟩
        (fun _ => [])).serial = SerialMsg.wroteHelloNFC ∧
    (writeCard true ⟨fun _ _ => true, fun _ => true⟩
        (fun _ => [])).card 4 = helloBlock ∧
    helloBlock =
      ("Hello NFC!".toList ++ List.replicate 6 ' ').map Char.toNat ∧
    helloBlock.length = 16 ∧
    (∀ b, b ≠ 4 →
      (writeCard true ⟨fun _ _ => true, fun _ => true⟩
        (fun _ => [])).card b = (fun _ => ([] : List Nat)) b) :=
  C3_writeDefault ⟨fun _ _ => true, fun _ => true⟩ (fun _ => []) rfl rfl

/-! ## Claim theorems: key-finalize length guard (C4) -/

/-- C4: a key-finalize attempt whose accumulated string is not exactly
12 characters is rejected and mutates nothing: the LCD path
(`changeKey`) returns the key set unchanged with the invalid report,
and the serial path (`processSerialCommand` in `SERIAL_KEY_INPUT`)
leaves the key table unchanged and prints the invalid-key message. -/
theorem C4_keyFinalize_guard :
    (∀ (s : List Char) (ks : KeySet), s.length ≠ 12 →
      changeKey s ks = (ks, false)) ∧
    (∀ st : SerialSt, st.currentState = MenuState.SERIAL_KEY_INPUT →
      st.serialInput.length ≠ 12 →
      (processSerialCommand st).keys = st.keys ∧
      SOut.invalidKeyMsg ∈ (processSerialCommand st).out) := by
  constructor
  · intro s ks hlen
    simp [changeKey, hlen]
  · intro st hst hlen
    obtain ⟨cs, si, ks, out⟩ := st
    simp only at hst hlen
    subst hst
    simp [processSerialCommand, hlen]

/-- C4 witness: a 3-character finalize attempt on both paths. -/
theorem C4_keyFinalize_guard_witness :
    changeKey ['A', 'B', 'C'] keysInit = (keysInit, false) ∧
    (processSerialCommand
        ⟨MenuState.SERIAL_KEY_INPUT, ['A', 'B', 'C'], keysInit, []⟩).keys =
      keysInit ∧
    SOut.invalidKeyMsg ∈ (processSerialCommand
      ⟨MenuState.SERIAL_KEY_INPUT, ['A', 'B', 'C'], keysInit, []⟩).out :=
  ⟨C4_keyFinalize_guard.1 ['A', 'B', 'C'] keysInit (by decide),
   (C4_keyFinalize_guard.2
      ⟨MenuState.SERIAL_KEY_INPUT, ['A', 'B', 'C'], keysInit, []⟩
      rfl (by decide)).1,
   (C4_keyFinalize_guard.2
      ⟨MenuState.SERIAL_KEY_INPUT, ['A', 'B', 'C'], keysInit, []⟩
      rfl (by decide)).2⟩

/-! ## Claim theorems: serial non-hex key line (C5) -/

/-- C5, counterexample: entering the serial key-input state (line "5")
and then the line "ZZZZZZZZZZZZ" does NOT produce an invalid-key report
and does NOT return the interaction state to the main menu — every `Z`
is discarded by the hex filter, so the terminator finds an empty line
and no command is processed.  (Slot 2 is indeed unchanged.) -/
theorem C5_counterexample :
    ¬ ((runSerial ("5" ++ "
" ++ "ZZZZZZZZZZZZ" ++ "
").toList).currentState
        = MenuState.MAIN_MENU) ∧
    ¬ (SOut.invalidKeyMsg ∈
        (runSerial ("5" ++ "
" ++ "ZZZZZZZZZZZZ" ++ "
").toList).out) := by
  decide

/-- C5, amended: after selecting the key-change option and entering the
line "ZZZZZZZZZZZZ", every character is silently discarded by the
hex-only accumulator, the empty line at the terminator is ignored (so
no invalid-key report is issued and no key change is dispatched),
KeySet slot 2 is unchanged, and the interaction state remains
`SERIAL_KEY_INPUT` rather than returning to the main menu. -/
theorem C5_amended :
    (runSerial ("5" ++ "
" ++ "ZZZZZZZZZZZZ" ++ "
").toList).currentState
      = MenuState.SERIAL_KEY_INPUT ∧
    (runSerial ("5" ++ "
" ++ "ZZZZZZZZZZZZ" ++ "
").toList).serialInput
      = [] ∧
    (runSerial ("5" ++ "
" ++ "ZZZZZZZZZZZZ" ++ "
").toList).keys.k2
      = keysInit.k2 ∧
    (runSerial ("5" ++ "
" ++ "ZZZZZZZZZZZZ" ++ "
").toList).out
      = [SOut.promptKey] := by
  decide

/-! ## Claim theorems: serial hex accumulator (C9) -/

/-- C9: in the serial key-input state the line accumulator only ever
holds hexadecimal characters and at most 12 of them; consequently the
key parser (`changeKeyFromSerial`, logged as `keyChangeCall`) is only
ever invoked on 12-character all-hexadecimal strings. -/
theorem C9_serial_hex_accumulator (cs : List Char) :
    ((runSerial cs).currentState = MenuState.SERIAL_KEY_INPUT →
      (runSerial cs).serialInput.length ≤ 12 ∧
      ∀ ch ∈ (runSerial cs).serialInput, isHexChar ch = true) ∧
    (∀ s, SOut.keyChangeCall s ∈ (runSerial cs).out →
      s.length = 12 ∧ ∀ ch ∈ s, isHexChar ch = true) :=
  runSerial_inv cs

/-- C9 witness: a partial hex line in the key-input state, and a full
12-character key change. -/
theorem C9_serial_hex_witness :
    ((runSerial ("5" ++ "
" ++ "AB").toList).serialInput.length ≤ 12 ∧
      ∀ ch ∈ (runSerial ("5" ++ "
" ++ "AB").toList).serialInput,
        isHexChar ch = true) ∧
    (("123456789ABC".toList).length = 12 ∧
      ∀ ch ∈ "123456789ABC".toList, isHexChar ch = true) :=
  ⟨(C9_serial_hex_accumulator ("5" ++ "
" ++ "AB").toList).1 (by decide),
   (C9_serial_hex_accumulator ("5" ++ "
" ++ "123456789ABC" ++ "
").toList).2
     "123456789ABC".toList (by decide)⟩

/-! ## Claim theorems: LCD under-length finalize (C10) -/

/-- C10: in the LCD key editor a finalize (select at cursor position
11) whose committed string is shorter than 12 characters is reachable
(rights advance the cursor without committing), and every such
under-length finalize is rejected — the key table is unchanged and the
attempt is logged as invalid. -/
theorem C10_lcd_underlength_finalize :
    (∀ st : KeySt, st.keyPos = 11 → (selectCommit st).length ≠ 12 →
      (handleKeyInputButton st KBtn.select).keys = st.keys ∧
      (handleKeyInputButton st KBtn.select).finals =
        st.finals ++ [(selectCommit st, false)]) ∧
    ((runKey (List.replicate 11 KBtn.right ++ [KBtn.select])).finals =
        [(['0'], false)] ∧
      (runKey (List.replicate 11 KBtn.right ++ [KBtn.select])).keys =
        keysInit ∧
      (['0'] : List Char).length < 12) := by
  constructor
  · intro st h11 hlen
    have hnot : ¬ st.keyPos < 11 := by omega
    simp [handleKeyInputButton, hnot, changeKey, hlen]
  · decide

/-- C10 witness: the state reached by eleven rights, finalized. -/
theorem C10_lcd_underlength_witness :
    (handleKeyInputButton (runKey (List.replicate 11 KBtn.right))
        KBtn.select).keys = (runKey (List.replicate 11 KBtn.right)).keys ∧
    (handleKeyInputButton (runKey (List.replicate 11 KBtn.right))
        KBtn.select).finals =
      (runKey (List.replicate 11 KBtn.right)).finals ++
        [(selectCommit (runKey (List.replicate 11 KBtn.right)), false)] :=
  C10_lcd_underlength_finalize.1 (runKey (List.replicate 11 KBtn.right))
    (by decide) (by decide)

/-! ## Claim theorems: format (C2) -/

theorem wipeBlocksLoop_untouched (env : CardEnv) :
    ∀ (bl : List Nat) (card : Nat → List Nat) (b : Nat), b ∉ bl →
      (wipeBlocksLoop env card bl).2 b = card b := by
  intro bl
  induction bl with
  | nil => intro card b _; rfl
  | cons x rest ih =>
    intro card b hb
    have hbx : b ≠ x := fun h => hb (h ▸ List.mem_cons_self x rest)
    have hbr : b ∉ rest := fun h => hb (List.mem_cons_of_mem x h)
    unfold wipeBlocksLoop
    split
    · rw [ih _ b hbr]
      exact Function.update_noteq hbx _ _
    · rfl

theorem formatSectorsLoop_sector0_untouched (env : CardEnv) :
    ∀ (sl : List Nat) (card : Nat → List Nat) (b : Nat),
      (∀ s ∈ sl, 1 ≤ s) → b < 4 →
      (formatSectorsLoop env card sl).2 b = card b := by
  intro sl
  induction sl with
  | nil => intro card b _ _; rfl
  | cons s rest ih =>
    intro card b hs hb
    have hs1 : 1 ≤ s := hs s (List.mem_cons_self s rest)
    have hnot : b ∉ [4 * s, 4 * s + 1, 4 * s + 2] := by
      intro h
      simp only [List.mem_cons, List.not_mem_nil, or_false] at h
      rcases h with h | h | h <;> omega
    unfold formatSectorsLoop
    split
    · rcases hwl : wipeBlocksLoop env card [4 * s, 4 * s + 1, 4 * s + 2]
        with ⟨ok, card2⟩
      have hcard2 : card2 b = card b := by
        have huntouched :=
          wipeBlocksLoop_untouched env [4 * s, 4 * s + 1, 4 * s + 2] card b hnot
        rw [hwl] at huntouched
        exact huntouched
      cases ok
      · exact hcard2
      · rw [ih card2 b (fun x hx => hs x (List.mem_cons_of_mem s hx)) hb]
        exact hcard2
    · rfl

theorem formatSectorsLoop_cons_ok (env : CardEnv) (card : Nat → List Nat)
    (s : Nat) (rest : List Nat)
    (ha : (authenticateWithKeys (env.auth (4 * s + 3))).1 = true)
    (hw : ∀ b, env.writeOk b = true) :
    formatSectorsLoop env card (s :: rest) =
      formatSectorsLoop env
        (Function.update (Function.update (Function.update card
          (4 * s) zeroBlock) (4 * s + 1) zeroBlock) (4 * s + 2) zeroBlock)
        rest := by
  conv_lhs => rw [formatSectorsLoop]
  rw [if_pos ha]
  simp [wipeBlocksLoop, hw]

theorem formatSectorsLoop_cons_authfail (env : CardEnv)
    (card : Nat → List Nat) (s : Nat) (rest : List Nat)
    (ha : (authenticateWithKeys (env.auth (4 * s + 3))).1 = false) :
    formatSectorsLoop env card (s :: rest) = (false, card) := by
  conv_lhs => rw [formatSectorsLoop]
  rw [if_neg (by simp [ha])]

set_option maxHeartbeats 1000000 in
/-- C2: (general part) `formatCard` never touches sector 0 (blocks
0..3) for any environment and card; (scenario part) when sectors 1-4
authenticate, sector 5's authentication fails and every attempted write
succeeds, the operation reports failure, the three data blocks of each
of sectors 1-4 are zeroed, the trailer blocks of sectors 1-4 are
untouched, and every block from sector 5 onward (block 20 and up) is
untouched. -/
theorem C2_format_abort :
    (∀ (found : Bool) (env : CardEnv) (card : Nat → List Nat) (b : Nat),
      b < 4 → (formatCard found env card).2 b = card b) ∧
    (∀ (env : CardEnv) (card : Nat → List Nat),
      (authenticateWithKeys (env.auth 7)).1 = true →
      (authenticateWithKeys (env.auth 11)).1 = true →
      (authenticateWithKeys (env.auth 15)).1 = true →
      (authenticateWithKeys (env.auth 19)).1 = true →
      (authenticateWithKeys (env.auth 23)).1 = false →
      (∀ b, env.writeOk b = true) →
      (formatCard true env card).1 = FmtR.formatFailed ∧
      (∀ s, 1 ≤ s → s ≤ 4 → ∀ o, o < 3 →
        (formatCard true env card).2 (4 * s + o) = zeroBlock) ∧
      (∀ s, 1 ≤ s → s ≤ 4 →
        (formatCard true env card).2 (4 * s + 3) = card (4 * s + 3)) ∧
      (∀ b, 20 ≤ b → (formatCard true env card).2 b = card b)) := by
  constructor
  · intro found env card b hb
    unfold formatCard
    split
    · rfl
    · rcases hfs : formatSectorsLoop env card (List.range' 1 15)
        with ⟨ok, card2⟩
      have h0 := formatSectorsLoop_sector0_untouched env
        (List.range' 1 15) card b (by decide) hb
      rw [hfs] at h0
      cases ok
      · exact h0
      · exact h0
  · intro env card h7 h11 h15 h19 h23 hw
    have e1 : (authenticateWithKeys (env.auth (4 * 1 + 3))).1 = true := by
      norm_num
      exact h7
    have e2 : (authenticateWithKeys (env.auth (4 * 2 + 3))).1 = true := by
      norm_num
      exact h11
    have e3 : (authenticateWithKeys (env.auth (4 * 3 + 3))).1 = true := by
      norm_num
      exact h15
    have e4 : (authenticateWithKeys (env.auth (4 * 4 + 3))).1 = true := by
      norm_num
      exact h19
    have e5 : (authenticateWithKeys (env.auth (4 * 5 + 3))).1 = false := by
      norm_num
      exact h23
    have hstart : formatCard true env card =
        match formatSectorsLoop env card (List.range' 1 15) with
        | (true, card2) => (FmtR.formatSuccess, card2)
        | (false, card2) => (FmtR.formatFailed, card2) := rfl
    have hchain : formatCard true env card =
        (FmtR.formatFailed,
          Function.update (Function.update (Function.update
            (Function.update (Function.update (Function.update
              (Function.update (Function.update (Function.update
                (Function.update (Function.update (Function.update
                  card 4 zeroBlock) 5 zeroBlock) 6 zeroBlock)
                8 zeroBlock) 9 zeroBlock) 10 zeroBlock)
              12 zeroBlock) 13 zeroBlock) 14 zeroBlock)
            16 zeroBlock) 17 zeroBlock) 18 zeroBlock) := by
      rw [hstart]
      rw [show List.range' 1 15 =
        [1, 2, 3, 4, 5, 6, 7, 8, 9, 10, 11, 12, 13, 14, 15] from rfl]
      rw [formatSectorsLoop_cons_ok env card 1 _ e1 hw]
      rw [formatSectorsLoop_cons_ok env _ 2 _ e2 hw]
      rw [formatSectorsLoop_cons_ok env _ 3 _ e3 hw]
      rw [formatSectorsLoop_cons_ok env _ 4 _ e4 hw]
      rw [formatSectorsLoop_cons_authfail env _ 5 _ e5]
    refine ⟨by rw [hchain], ?_, ?_, ?_⟩
    · intro s hs1 hs4 o ho
      rw [hchain]
      interval_cases s <;> interval_cases o <;>
        · simp only [Function.update_apply]
          norm_num
    · intro s hs1 hs4
      rw [hchain]
      interval_cases s <;>
        · simp only [Function.update_apply]
          norm_num
    · intro b hb
      rw [hchain]
      dsimp only
      rw [Function.update_noteq (show b ≠ 18 by omega) _ _,
        Function.update_noteq (show b ≠ 17 by omega) _ _,
        Function.update_noteq (show b ≠ 16 by omega) _ _,
        Function.update_noteq (show b ≠ 14 by omega) _ _,
        Function.update_noteq (show b ≠ 13 by omega) _ _,
        Function.update_noteq (show b ≠ 12 by omega) _ _,
        Function.update_noteq (show b ≠ 10 by omega) _ _,
        Function.update_noteq (show b ≠ 9 by omega) _ _,
        Function.update_noteq (show b ≠ 8 by omega) _ _,
        Function.update_noteq (show b ≠ 6 by omega) _ _,
        Function.update_noteq (show b ≠ 5 by omega) _ _,
        Function.update_noteq (show b ≠ 4 by omega) _ _]

/-- C2 witness: an environment whose keys open every trailer below
block 23 and none from there on, with all writes accepted. -/
theorem C2_format_abort_witness :
    (formatCard true ⟨fun t _ => decide (t < 23), fun _ => true⟩
        (fun _ => List.replicate 16 7)).1 = FmtR.formatFailed ∧
    (∀ s, 1 ≤ s → s ≤ 4 → ∀ o, o < 3 →
      (formatCard true ⟨fun t _ => decide (t < 23), fun _ => true⟩
        (fun _ => List.replicate 16 7)).2 (4 * s + o) = zeroBlock) ∧
    (∀ s, 1 ≤ s → s ≤ 4 →
      (formatCard true ⟨fun t _ => decide (t < 23), fun _ => true⟩
          (fun _ => List.replicate 16 7)).2 (4 * s + 3) =
        (fun _ => List.replicate 16 7) (4 * s + 3)) ∧
    (∀ b, 20 ≤ b →
      (formatCard true ⟨fun t _ => decide (t < 23), fun _ => true⟩
          (fun _ => List.replicate 16 7)).2 b =
        (fun _ => List.replicate 16 7) b) :=
  C2_format_abort.2 ⟨fun t _ => decide (t < 23), fun _ => true⟩
    (fun _ => List.replicate 16 7)
    (by decide) (by decide) (by decide) (by decide) (by decide)
    (fun b => rfl)

end NFC
